import Mathlib

/-!
Verification of the downloading core of `src/youtube_downloader.py`.

The Python source is a Tk GUI around the pytubefix library.  The definitions
below are a shallow embedding of the pure decision logic of that file:

* `sanitize_filename`   — lines 354-365 (regex pipeline, modelled char-by-char);
* `on_progress`         — lines 453-463 (percentage computation, exact rationals);
* `on_url_change`       — lines 180-197 (cheap URL heuristic; the returned
  `Nat` counts media-provider (network) calls made by the chosen branch:
  the fetch branch starts `fetch_stream_options`, which contacts the
  provider, the two rejecting branches return without any call);
* `fetch_stream_options` — lines 199-287 (filter / order_by / desc pipeline of
  pytubefix, where `order_by` drops streams whose sort attribute is `None`
  and sorts by the numeric value of the attribute; the float "MB" text in a
  label is abstracted to the integer byte count — no claim depends on it);
* `download_single_item` / `download_playlist` — lines 367-451.  The behaviour
  of the external byte transfer (`stream.download`, which may raise) is an
  input of the model, recorded in the `transferOk` field of a stream; one
  `Outcome` is recorded per processed member, mirroring the per-member
  SUCCESS / fallback / ERROR log lines of the source.

Python `\s` is modelled by its ASCII part; the argument nowhere depends on
which characters count as whitespace.
-/

namespace YTDL

/-! ### `sanitize_filename` (source lines 354-365) -/

def illegalChars : List Char := ['\\', '/', ':', '*', '?', '\"', '<', '>', '|']

def isIllegal (c : Char) : Bool := illegalChars.contains c

def isPySpace (c : Char) : Bool :=
  c == ' ' || c == '\t' || c == '\n' || c == '\r' || c == Char.ofNat 11 || c == Char.ofNat 12

def isUnd (c : Char) : Bool := c == '_'

/-- `re.sub(p+, rep, s)` for a character class `p`: every maximal run of
characters satisfying `p` is replaced by the single character `rep`.  The
boolean state records whether we are inside a run. -/
def collapseAux (p : Char → Bool) (rep : Char) : Bool → List Char → List Char
  | _, [] => []
  | inRun, c :: cs =>
    if p c then
      if inRun then collapseAux p rep true cs
      else rep :: collapseAux p rep true cs
    else c :: collapseAux p rep false cs

def collapseRuns (p : Char → Bool) (rep : Char) (l : List Char) : List Char :=
  collapseAux p rep false l

/-- Python `str.strip(chars)`: remove the characters satisfying `p` from both
ends. -/
def pyStrip (p : Char → Bool) (l : List Char) : List Char :=
  ((l.dropWhile p).reverse.dropWhile p).reverse

/-- The body of `sanitize_filename`: remove `\/:*?"<>|`, collapse whitespace
runs to `_`, collapse `_` runs, strip `_` from both ends, truncate to 100. -/
def sanitizeChars (l : List Char) : List Char :=
  List.take 100 (pyStrip isUnd (collapseRuns isUnd '_'
    (collapseRuns isPySpace '_' (List.filter (fun c => !(isIllegal c)) l))))

def sanitize_filename (title : String) : String :=
  String.mk (sanitizeChars title.data)

/-! ### `on_progress` (source lines 453-463) -/

def on_progress (filesize bytesRemaining : Int) : ℚ :=
  if filesize = 0 then 0
  else ((filesize : ℚ) - (bytesRemaining : ℚ)) / (filesize : ℚ) * 100

/-! ### Streams and the fetch pipeline (source lines 199-287) -/

structure MediaStream where
  itag : Nat
  progressive : Bool
  mp4Ext : Bool
  onlyAudioTrack : Bool
  resolution : Option Nat
  abr : Option Nat
  filesize : Int
  transferOk : Bool
deriving DecidableEq

def resKey (s : MediaStream) : Nat := s.resolution.getD 0

def abrKey (s : MediaStream) : Nat := s.abr.getD 0

def byDescRes (a b : MediaStream) : Prop := resKey b ≤ resKey a

def byDescAbr (a b : MediaStream) : Prop := abrKey b ≤ abrKey a

instance : DecidableRel byDescRes := fun a b => Nat.decLe (resKey b) (resKey a)

instance : DecidableRel byDescAbr := fun a b => Nat.decLe (abrKey b) (abrKey a)

instance : IsTotal MediaStream byDescRes := ⟨fun a b => Nat.le_total (resKey b) (resKey a)⟩

instance : IsTotal MediaStream byDescAbr := ⟨fun a b => Nat.le_total (abrKey b) (abrKey a)⟩

instance : IsTrans MediaStream byDescRes := ⟨fun _ _ _ hab hbc => Nat.le_trans hbc hab⟩

instance : IsTrans MediaStream byDescAbr := ⟨fun _ _ _ hab hbc => Nat.le_trans hbc hab⟩

/-- pytubefix `order_by('resolution').desc()`: drop the streams without the
attribute, sort by its numeric value, highest first. -/
def orderByResolutionDesc (l : List MediaStream) : List MediaStream :=
  (l.filter (fun s => s.resolution.isSome)).insertionSort byDescRes

def orderByAbrDesc (l : List MediaStream) : List MediaStream :=
  (l.filter (fun s => s.abr.isSome)).insertionSort byDescAbr

def resLabel (s : MediaStream) : String :=
  match s.resolution with
  | some n => toString n ++ "p"
  | none => "None"

def abrLabel (s : MediaStream) : String :=
  match s.abr with
  | some n => toString n ++ "kbps"
  | none => "None"

def videoLabel (s : MediaStream) : String :=
  resLabel s ++ " - " ++ toString s.filesize ++ " MB"

def audioLabel (s : MediaStream) : String :=
  abrLabel s ++ " - " ++ toString s.filesize ++ " MB"

/-- Video branch of `fetch_stream_options` (lines 214-221):
`filter(progressive=True, file_extension='mp4').order_by('resolution').desc()`
then keep streams with a truthy `resolution`, paired with their label. -/
def fetchVideoOptions (streams : List MediaStream) : List (MediaStream × String) :=
  ((orderByResolutionDesc (streams.filter (fun s => s.progressive && s.mp4Ext))).filter
      (fun s => s.resolution.isSome)).map (fun s => (s, videoLabel s))

/-- Audio branch of `fetch_stream_options` (lines 222-228). -/
def fetchAudioOptions (streams : List MediaStream) : List (MediaStream × String) :=
  ((orderByAbrDesc (streams.filter (fun s => s.onlyAudioTrack && s.mp4Ext))).filter
      (fun s => s.abr.isSome)).map (fun s => (s, audioLabel s))

/-- `update_ui` (lines 270-276): the quality menu is preset to
`stream_options[0][1]` when the option list is non-empty. -/
def defaultQuality (opts : List (MediaStream × String)) : Option String :=
  opts.head?.map (fun p => p.2)

/-! ### Download coordinator (source lines 367-451) -/

structure PlaylistVideo where
  title : String
  streams : List MediaStream
deriving DecidableEq

/-- One recorded outcome per processed item, mirroring the SUCCESS /
SUCCESS (Fallback) / ERROR log line the source emits for it. -/
inductive Outcome where
  | success (filename : String)
  | fallbackUsed (quality : String) (filename : String)
  | failed (reason : String)
deriving DecidableEq

/-- The f-string `f"{ordinal}-{sanitizedTitle}-{qualityTag}.{extension}"`. -/
def mkFilename (ordinal : Nat) (sanitizedTitle qualityTag ext : String) : String :=
  toString ordinal ++ "-" ++ sanitizedTitle ++ "-" ++ qualityTag ++ "." ++ ext

/-- pytubefix `streams.get_by_itag`: first stream with the requested itag. -/
def get_by_itag (streams : List MediaStream) (t : Nat) : Option MediaStream :=
  streams.find? (fun s => s.itag == t)

def filterProgressiveMp4 (streams : List MediaStream) : List MediaStream :=
  streams.filter (fun s => s.progressive && s.mp4Ext)

/-- Line 435: `streams.filter(progressive=True, file_extension='mp4')
.order_by('resolution').desc().first()`. -/
def highestFallback (streams : List MediaStream) : Option MediaStream :=
  (orderByResolutionDesc (filterProgressiveMp4 streams)).head?

/-- Body of the `download_playlist` loop (lines 417-448) for one member, with
1-based `ordinal`.  A transfer that raises is caught by the `except` clause
and recorded as a failure for this member only. -/
def downloadMember (selectedItag : Nat) (qualityInfo : String) (ordinal : Nat)
    (v : PlaylistVideo) : Outcome :=
  let sTitle := sanitize_filename v.title
  match get_by_itag v.streams selectedItag with
  | some s =>
    if s.transferOk then Outcome.success (mkFilename ordinal sTitle qualityInfo "mp4")
    else Outcome.failed "transfer error"
  | none =>
    match highestFallback v.streams with
    | some hs =>
      if hs.transferOk then
        Outcome.fallbackUsed (resLabel hs) (mkFilename ordinal sTitle (resLabel hs) "mp4")
      else Outcome.failed "transfer error"
    | none => Outcome.failed "no compatible rendition"

/-- `for i, video in enumerate(selected_yt_videos)` with the running 0-based
index `i`; the member at position `i` is processed with ordinal `i + 1`. -/
def downloadPlaylistLoop (selectedItag : Nat) (qualityInfo : String) :
    Nat → List PlaylistVideo → List Outcome
  | _, [] => []
  | i, v :: vs =>
    downloadMember selectedItag qualityInfo (i + 1) v ::
      downloadPlaylistLoop selectedItag qualityInfo (i + 1) vs

/-- `download_playlist` (lines 401-451): look the quality label up in the
`(itag, label)` options, abort when absent, else run the loop with
`quality_str.split(' ')[0]` as the quality tag. -/
def download_playlist (stream_options : List (Nat × String)) (quality_str : String)
    (videos : List PlaylistVideo) : Option (List Outcome) :=
  match stream_options.find? (fun p => p.2 == quality_str) with
  | none => none
  | some p =>
    some (downloadPlaylistLoop p.1 ((quality_str.splitOn " ").headD "") 0 videos)

/-- `str(quality_info) if quality_info else "unknown_quality"` (lines 383-386),
where `quality_info` is the resolution for video and the abr for audio. -/
def qualityInfoStr (isVideo : Bool) (s : MediaStream) : String :=
  if isVideo then
    match s.resolution with
    | some n => toString n ++ "p"
    | none => "unknown_quality"
  else
    match s.abr with
    | some n => toString n ++ "kbps"
    | none => "unknown_quality"

/-- `download_single_item` (lines 367-398): locate the selected stream by
label, build `1-{sanitized}-{quality}.{mp4|mp3}` and transfer. -/
def download_single_item (stream_options : List (MediaStream × String)) (isVideo : Bool)
    (title : String) (quality_str : String) : Outcome :=
  match stream_options.find? (fun p => p.2 == quality_str) with
  | none => Outcome.failed "rendition not found"
  | some p =>
    let ext := if isVideo then "mp4" else "mp3"
    let fname := mkFilename 1 (sanitize_filename title) (qualityInfoStr isVideo p.1) ext
    if p.1.transferOk then Outcome.success fname else Outcome.failed "transfer error"

/-! ### `on_url_change` (source lines 180-197) -/

/-- Python `needle in hay` on strings. -/
def containsSub (hay needle : List Char) : Bool :=
  hay.tails.any (fun t => needle.isPrefixOf t)

def urlPat1 : List Char := "youtube.com/watch?v=".data

def urlPat2 : List Char := "youtube.com/playlist?list=".data

def urlPat3 : List Char := "youtu.be/".data

def urlPat4 : List Char := "music.youtube.com/watch?v=".data

def matchesYoutubePattern (u : List Char) : Bool :=
  containsSub u urlPat1 || containsSub u urlPat2 || containsSub u urlPat3 || containsSub u urlPat4

inductive UrlAction where
  | emptyUrl
  | invalidFormat
  | startFetch
deriving DecidableEq

/-- `on_url_change`: strip the entry, reject the empty string, reject a string
matching none of the four substring patterns, otherwise start the fetch
thread.  The second component counts media-provider (network) calls. -/
def on_url_change (url : String) : UrlAction × Nat :=
  let u := pyStrip isPySpace url.data
  if u.isEmpty then (UrlAction.emptyUrl, 0)
  else if !(matchesYoutubePattern u) then (UrlAction.invalidFormat, 0)
  else (UrlAction.startFetch, 1)

/-- The cheap format heuristic of the claim: stripped-empty, or no recognized
substring pattern.  These are exactly the two rejecting branches above. -/
def failsHeuristic (url : String) : Bool :=
  let u := pyStrip isPySpace url.data
  u.isEmpty || !(matchesYoutubePattern u)

/-! ### Playlist enumeration bookkeeping (source lines 248-258 and 328-336) -/

/-- Listbox rows built during playlist enumeration: a member whose title
resolution fails still gets a row, reading `{i+1}. [Error fetching title]`. -/
def playlistDisplayEntries (members : List (Option String)) : List String :=
  members.enum.map (fun p =>
    toString (p.1 + 1) ++ ". " ++
      (match p.2 with
       | some t => t
       | none => "[Error fetching title]"))

/-- `playlist_videos_info`: only the successfully resolved members. -/
def playlistInternalTitles (members : List (Option String)) : List String :=
  members.filterMap id

/-- Line 336: `self.playlist_videos_info[i]` for a selected listbox index. -/
def resolveSelectionIndex (members : List (Option String)) (i : Nat) : Option String :=
  (playlistInternalTitles members)[i]?

/-! ## Claim C3 — zero-safe percentage computation -/

/-- C3: for every pair, the progress reporter computes percentage `0` when the
total size is `0` (no division), and `(total - remaining) / total * 100`
otherwise; in particular `report(0, anything) = 0` and
`report(1000, 250) = 75`. -/
theorem C3_progress_zero_safe (t r : Int) :
    (t = 0 → on_progress t r = 0)
    ∧ (t ≠ 0 → on_progress t r = (((t : ℚ) - (r : ℚ)) / (t : ℚ)) * 100)
    ∧ on_progress 0 r = 0
    ∧ on_progress 1000 250 = 75 := by
  refine ⟨fun h => by simp [on_progress, h], fun h => by simp [on_progress, h],
    by simp [on_progress], ?_⟩
  norm_num [on_progress]

theorem C3_progress_zero_safe_witness :
    on_progress 0 3 = 0
    ∧ on_progress 1000 250 = ((((1000 : Int) : ℚ) - ((250 : Int) : ℚ)) / ((1000 : Int) : ℚ)) * 100 :=
  ⟨(C3_progress_zero_safe 0 3).1 rfl, (C3_progress_zero_safe 1000 250).2.1 (by norm_num)⟩

/-! ## Claim C4 — the published percentage is NOT clamped to [0, 100] -/

/-- C4 fails as stated: the source computes the percentage with no clamping,
so `bytesRemaining > bytesTotal` yields a negative value; at
`(1000, 2000)` the result is `-100`, outside `[0, 100]`. -/
theorem C4_percentage_not_clamped_counterexample :
    ¬(0 ≤ on_progress 1000 2000 ∧ on_progress 1000 2000 ≤ 100) := by
  intro h
  have he : on_progress 1000 2000 = -100 := by norm_num [on_progress]
  rw [he] at h
  norm_num at h

/-- C4 (amended): whenever `0 ≤ bytesRemaining ≤ bytesTotal` — the only
inputs the transfer library produces — the computed percentage lies in
`[0, 100]`; no clamping is performed by the code. -/
theorem C4_percentage_in_range (t r : Int) (h0 : 0 ≤ r) (h1 : r ≤ t) :
    0 ≤ on_progress t r ∧ on_progress t r ≤ 100 := by
  unfold on_progress
  by_cases ht : t = 0
  · simp [ht]
  · rw [if_neg ht]
    have htpos : (0 : ℚ) < (t : ℚ) := by
      have h2 : 0 < t := lt_of_le_of_ne (le_trans h0 h1) (Ne.symm ht)
      exact_mod_cast h2
    have hr0 : (0 : ℚ) ≤ (r : ℚ) := by exact_mod_cast h0
    have hrt : (r : ℚ) ≤ (t : ℚ) := by exact_mod_cast h1
    constructor
    · apply mul_nonneg _ (by norm_num)
      apply div_nonneg (by linarith) (le_of_lt htpos)
    · have hd : ((t : ℚ) - (r : ℚ)) / (t : ℚ) ≤ 1 := by
        rw [div_le_one htpos]
        linarith
      calc ((t : ℚ) - (r : ℚ)) / (t : ℚ) * 100 ≤ 1 * 100 :=
            mul_le_mul_of_nonneg_right hd (by norm_num)
        _ = 100 := by norm_num

theorem C4_percentage_in_range_witness :
    0 ≤ on_progress 1000 250 ∧ on_progress 1000 250 ≤ 100 :=
  C4_percentage_in_range 1000 250 (by norm_num) (by norm_num)

/-! ## Claim C9 — concrete sanitization example -/

/-- C9: sanitizing `"My: Video? <Test>"` yields exactly `"My_Video_Test"`. -/
theorem C9_sanitize_concrete_example :
    sanitize_filename "My: Video? <Test>" = "My_Video_Test" := by decide

/-! ## Claim C7 — URLs failing the cheap heuristic never reach the network -/

/-- C7: every URL that fails the cheap format heuristic (stripped-empty, or
containing none of the four recognized substring patterns) is rejected on one
of the two early-return branches, with zero calls to the media provider. -/
theorem C7_invalid_url_rejected_without_network (url : String)
    (h : failsHeuristic url = true) :
    (on_url_change url).2 = 0
    ∧ ((on_url_change url).1 = UrlAction.emptyUrl
      ∨ (on_url_change url).1 = UrlAction.invalidFormat) := by
  by_cases he : (pyStrip isPySpace url.data).isEmpty = true
  · simp [on_url_change, he]
  · have he' : (pyStrip isPySpace url.data).isEmpty = false := by
      simpa using he
    have h2 : ((pyStrip isPySpace url.data).isEmpty
        || !(matchesYoutubePattern (pyStrip isPySpace url.data))) = true := h
    rw [he'] at h2
    have h' : (!(matchesYoutubePattern (pyStrip isPySpace url.data))) = true := by
      simpa using h2
    simp [on_url_change, he', h']

theorem C7_invalid_url_rejected_without_network_witness :
    failsHeuristic "notaurl" = true
    ∧ ((on_url_change "notaurl").2 = 0
      ∧ ((on_url_change "notaurl").1 = UrlAction.emptyUrl
        ∨ (on_url_change "notaurl").1 = UrlAction.invalidFormat)) :=
  ⟨by decide, C7_invalid_url_rejected_without_network "notaurl" (by decide)⟩

/-! ## The playlist loop, position by position -/

lemma downloadPlaylistLoop_length (t : Nat) (q : String) :
    ∀ (i : Nat) (vs : List PlaylistVideo),
      (downloadPlaylistLoop t q i vs).length = vs.length := by
  intro i vs
  induction vs generalizing i with
  | nil => rfl
  | cons v vs ih => simp [downloadPlaylistLoop, ih]

lemma downloadPlaylistLoop_getElem (t : Nat) (q : String) :
    ∀ (vs : List PlaylistVideo) (i k : Nat),
      (downloadPlaylistLoop t q i vs)[k]? =
        (vs[k]?).map (fun v => downloadMember t q (i + k + 1) v) := by
  intro vs
  induction vs with
  | nil => intro i k; simp [downloadPlaylistLoop]
  | cons v vs ih =>
    intro i k
    cases k with
    | zero => simp [downloadPlaylistLoop]
    | succ k =>
      simp only [downloadPlaylistLoop, List.getElem?_cons_succ]
      rw [ih (i + 1) k]
      have h : i + 1 + k + 1 = i + (k + 1) + 1 := by omega
      rw [h]

/-! ## Claim C1 — per-member failure isolation in playlist downloads -/

def demoOkStream (t : Nat) : MediaStream :=
  ⟨t, true, true, false, some 720, none, 1000, true⟩

def demoBadStream (t : Nat) : MediaStream :=
  ⟨t, true, true, false, some 720, none, 1000, false⟩

/-- C1: the playlist loop records exactly one outcome per selected member, and
the outcome at position `k` is a function of that member alone (so an error
during one member's transfer leaves every other member's outcome unchanged);
concretely, with member 2 of 3 raising during transfer, the run yields
exactly `[Success, Failed, Success]`. -/
theorem C1_playlist_failure_isolation (t : Nat) (q : String) (vs : List PlaylistVideo) :
    ((downloadPlaylistLoop t q 0 vs).length = vs.length
      ∧ ∀ k : Nat, (downloadPlaylistLoop t q 0 vs)[k]? =
          (vs[k]?).map (fun v => downloadMember t q (k + 1) v))
    ∧ downloadPlaylistLoop 7 "720p" 0
        [⟨"A", [demoOkStream 7]⟩, ⟨"B", [demoBadStream 7]⟩, ⟨"C", [demoOkStream 7]⟩] =
      [Outcome.success (mkFilename 1 "A" "720p" "mp4"),
       Outcome.failed "transfer error",
       Outcome.success (mkFilename 3 "C" "720p" "mp4")] := by
  refine ⟨⟨downloadPlaylistLoop_length t q 0 vs, ?_⟩, by decide⟩
  intro k
  have h := downloadPlaylistLoop_getElem t q vs 0 k
  simpa using h

/-! ## Claim C6 — deterministic filename policy -/

/-- C6: every successful item of a download run is written to
`{ordinal}-{sanitizedTitle}-{qualityTag}.{extension}` where the ordinal is the
1-based position in the processed sequence (always 1 for the single-item
path), and the extension is `mp4` for a video download and `mp3` for
audio. -/
theorem C6_filename_policy :
    (∀ (opts : List (MediaStream × String)) (isVideo : Bool) (title quality_str : String)
        (p : MediaStream × String),
        opts.find? (fun x => x.2 == quality_str) = some p →
        p.1.transferOk = true →
        download_single_item opts isVideo title quality_str =
          Outcome.success (mkFilename 1 (sanitize_filename title)
            (qualityInfoStr isVideo p.1) (if isVideo then "mp4" else "mp3")))
    ∧ (∀ (t : Nat) (q : String) (vs : List PlaylistVideo) (k : Nat) (v : PlaylistVideo)
        (s : MediaStream),
        vs[k]? = some v →
        get_by_itag v.streams t = some s →
        s.transferOk = true →
        (downloadPlaylistLoop t q 0 vs)[k]? =
          some (Outcome.success (mkFilename (k + 1) (sanitize_filename v.title) q "mp4"))) := by
  constructor
  · intro opts isVideo title quality_str p hfind hok
    simp [download_single_item, hfind, hok]
  · intro t q vs k v s hv hitag hok
    have h := downloadPlaylistLoop_getElem t q vs 0 k
    simp only [Nat.zero_add] at h
    rw [h, hv]
    simp [downloadMember, hitag, hok]

theorem C6_filename_policy_witness :
    download_single_item [(demoOkStream 7, "720p - 1000 MB")] true "T" "720p - 1000 MB" =
        Outcome.success (mkFilename 1 (sanitize_filename "T")
          (qualityInfoStr true (demoOkStream 7)) (if true then "mp4" else "mp3"))
    ∧ (downloadPlaylistLoop 7 "720p" 0 [⟨"A", [demoOkStream 7]⟩])[0]? =
        some (Outcome.success (mkFilename (0 + 1) (sanitize_filename "A") "720p" "mp4")) :=
  ⟨C6_filename_policy.1 [(demoOkStream 7, "720p - 1000 MB")] true "T" "720p - 1000 MB"
      (demoOkStream 7, "720p - 1000 MB") (by decide) rfl,
   C6_filename_policy.2 7 "720p" [⟨"A", [demoOkStream 7]⟩] 0 ⟨"A", [demoOkStream 7]⟩
      (demoOkStream 7) rfl (by decide) rfl⟩

/-! ## Sortedness of the `order_by(..).desc()` pipeline -/

lemma head?_orderByResolutionDesc_max {l : List MediaStream} {hs : MediaStream}
    (h : (orderByResolutionDesc l).head? = some hs) :
    hs ∈ l ∧ ∀ s ∈ l, resKey s ≤ resKey hs := by
  unfold orderByResolutionDesc at h
  have hperm := List.perm_insertionSort byDescRes (l.filter (fun s => s.resolution.isSome))
  have hsorted := List.sorted_insertionSort byDescRes (l.filter (fun s => s.resolution.isSome))
  obtain ⟨tl, htl⟩ : ∃ tl,
      (l.filter (fun s => s.resolution.isSome)).insertionSort byDescRes = hs :: tl := by
    cases hm : (l.filter (fun s => s.resolution.isSome)).insertionSort byDescRes with
    | nil => rw [hm] at h; simp at h
    | cons a tl =>
      rw [hm] at h
      simp at h
      exact ⟨tl, by rw [h]⟩
  constructor
  · have h1 : hs ∈ (l.filter (fun s => s.resolution.isSome)).insertionSort byDescRes := by
      rw [htl]; exact List.mem_cons_self hs tl
    exact List.mem_of_mem_filter (hperm.mem_iff.mp h1)
  · intro s hsl
    by_cases hres : s.resolution.isSome = true
    · have hmem : s ∈ l.filter (fun x => x.resolution.isSome) := List.mem_filter.mpr ⟨hsl, hres⟩
      have hmem2 : s ∈ (l.filter (fun x => x.resolution.isSome)).insertionSort byDescRes :=
        hperm.mem_iff.mpr hmem
      rw [htl] at hmem2
      rcases List.mem_cons.mp hmem2 with rfl | hmem3
      · exact Nat.le_refl _
      · have hp := hsorted
        rw [htl] at hp
        exact (List.pairwise_cons.mp hp).1 s hmem3
    · have hnone : s.resolution = none := by
        cases hr : s.resolution with
        | none => rfl
        | some n => rw [hr] at hres; simp at hres
      simp [resKey, hnone]

lemma head?_orderByAbrDesc_max {l : List MediaStream} {hs : MediaStream}
    (h : (orderByAbrDesc l).head? = some hs) :
    hs ∈ l ∧ ∀ s ∈ l, abrKey s ≤ abrKey hs := by
  unfold orderByAbrDesc at h
  have hperm := List.perm_insertionSort byDescAbr (l.filter (fun s => s.abr.isSome))
  have hsorted := List.sorted_insertionSort byDescAbr (l.filter (fun s => s.abr.isSome))
  obtain ⟨tl, htl⟩ : ∃ tl,
      (l.filter (fun s => s.abr.isSome)).insertionSort byDescAbr = hs :: tl := by
    cases hm : (l.filter (fun s => s.abr.isSome)).insertionSort byDescAbr with
    | nil => rw [hm] at h; simp at h
    | cons a tl =>
      rw [hm] at h
      simp at h
      exact ⟨tl, by rw [h]⟩
  constructor
  · have h1 : hs ∈ (l.filter (fun s => s.abr.isSome)).insertionSort byDescAbr := by
      rw [htl]; exact List.mem_cons_self hs tl
    exact List.mem_of_mem_filter (hperm.mem_iff.mp h1)
  · intro s hsl
    by_cases hres : s.abr.isSome = true
    · have hmem : s ∈ l.filter (fun x => x.abr.isSome) := List.mem_filter.mpr ⟨hsl, hres⟩
      have hmem2 : s ∈ (l.filter (fun x => x.abr.isSome)).insertionSort byDescAbr :=
        hperm.mem_iff.mpr hmem
      rw [htl] at hmem2
      rcases List.mem_cons.mp hmem2 with rfl | hmem3
      · exact Nat.le_refl _
      · have hp := hsorted
        rw [htl] at hp
        exact (List.pairwise_cons.mp hp).1 s hmem3
    · have hnone : s.abr = none := by
        cases hr : s.abr with
        | none => rfl
        | some n => rw [hr] at hres; simp at hres
      simp [abrKey, hnone]

/-! ## Claim C2 — per-member fallback to the best compatible rendition -/

/-- C2: in a playlist run, a member whose stream catalog lacks the requested
itag falls back to the highest-quality rendition passing the progressive-MP4
filter (`FallbackUsed` outcome when its transfer succeeds); when no such
rendition exists the member is recorded as failed; every other member's
outcome is still the function of that member alone. -/
theorem C2_playlist_rendition_fallback (t : Nat) (q : String) (vs : List PlaylistVideo)
    (k : Nat) (v : PlaylistVideo) (hv : vs[k]? = some v)
    (habsent : get_by_itag v.streams t = none) :
    (∀ hs : MediaStream, highestFallback v.streams = some hs →
        hs ∈ filterProgressiveMp4 v.streams
      ∧ (∀ s ∈ filterProgressiveMp4 v.streams, resKey s ≤ resKey hs)
      ∧ (hs.transferOk = true →
          (downloadPlaylistLoop t q 0 vs)[k]? =
            some (Outcome.fallbackUsed (resLabel hs)
              (mkFilename (k + 1) (sanitize_filename v.title) (resLabel hs) "mp4"))))
    ∧ (highestFallback v.streams = none →
        (downloadPlaylistLoop t q 0 vs)[k]? = some (Outcome.failed "no compatible rendition"))
    ∧ (∀ j : Nat, j ≠ k →
        (downloadPlaylistLoop t q 0 vs)[j]? =
          (vs[j]?).map (fun w => downloadMember t q (j + 1) w)) := by
  have hk : (downloadPlaylistLoop t q 0 vs)[k]? = some (downloadMember t q (k + 1) v) := by
    have h := downloadPlaylistLoop_getElem t q vs 0 k
    simp only [Nat.zero_add] at h
    rw [h, hv]
    rfl
  refine ⟨?_, ?_, ?_⟩
  · intro hs hfb
    have hfb' : (orderByResolutionDesc (filterProgressiveMp4 v.streams)).head? = some hs := hfb
    have hmax := head?_orderByResolutionDesc_max hfb'
    refine ⟨hmax.1, hmax.2, ?_⟩
    intro hok
    rw [hk]
    simp [downloadMember, habsent, hfb, hok]
  · intro hfb
    rw [hk]
    simp [downloadMember, habsent, hfb]
  · intro j hj
    have h := downloadPlaylistLoop_getElem t q vs 0 j
    simpa using h

def demoFallbackStream : MediaStream :=
  ⟨18, true, true, false, some 360, none, 500, true⟩

theorem C2_playlist_rendition_fallback_witness :
    (downloadPlaylistLoop 7 "720p" 0
        [⟨"A", [demoOkStream 7]⟩, ⟨"B", [demoFallbackStream]⟩])[1]? =
      some (Outcome.fallbackUsed (resLabel demoFallbackStream)
        (mkFilename (1 + 1) (sanitize_filename "B") (resLabel demoFallbackStream) "mp4")) :=
  ((C2_playlist_rendition_fallback 7 "720p"
      [⟨"A", [demoOkStream 7]⟩, ⟨"B", [demoFallbackStream]⟩] 1 ⟨"B", [demoFallbackStream]⟩
      rfl (by decide)).1 demoFallbackStream (by decide)).2.2 rfl

/-! ## Claim C8 — catalogs are sorted non-increasingly; index 0 is the default -/

lemma pairwise_head?_max {α : Type} {key : α → Nat} {l : List α} {h : α}
    (hp : List.Pairwise (fun a b => key b ≤ key a) l) (hh : l.head? = some h) :
    ∀ o ∈ l, key o ≤ key h := by
  cases l with
  | nil => simp at hh
  | cons a tl =>
    simp only [List.head?_cons, Option.some_inj] at hh
    subst hh
    intro o ho
    rcases List.mem_cons.mp ho with rfl | ho'
    · exact Nat.le_refl _
    · exact (List.pairwise_cons.mp hp).1 o ho'

lemma fetchVideoOptions_pairwise (streams : List MediaStream) :
    List.Pairwise (fun a b : MediaStream × String => resKey b.1 ≤ resKey a.1)
      (fetchVideoOptions streams) := by
  unfold fetchVideoOptions
  apply List.pairwise_map.mpr
  apply List.Pairwise.sublist (List.filter_sublist _)
  exact List.sorted_insertionSort byDescRes _

lemma fetchAudioOptions_pairwise (streams : List MediaStream) :
    List.Pairwise (fun a b : MediaStream × String => abrKey b.1 ≤ abrKey a.1)
      (fetchAudioOptions streams) := by
  unfold fetchAudioOptions
  apply List.pairwise_map.mpr
  apply List.Pairwise.sublist (List.filter_sublist _)
  exact List.sorted_insertionSort byDescAbr _

/-- C8: each fetched rendition catalog is non-increasing in its declared
quality metric (resolution for video, bitrate for audio), the element at
index 0 — when one exists — realizes the maximum of the metric over the
catalog, and the default selection offered after a fetch is exactly the
element at index 0. -/
theorem C8_catalog_sorted_desc (streams : List MediaStream) :
    List.Pairwise (fun a b : MediaStream × String => resKey b.1 ≤ resKey a.1)
      (fetchVideoOptions streams)
    ∧ (∀ h, (fetchVideoOptions streams).head? = some h →
        ∀ o ∈ fetchVideoOptions streams, resKey o.1 ≤ resKey h.1)
    ∧ List.Pairwise (fun a b : MediaStream × String => abrKey b.1 ≤ abrKey a.1)
        (fetchAudioOptions streams)
    ∧ (∀ h, (fetchAudioOptions streams).head? = some h →
        ∀ o ∈ fetchAudioOptions streams, abrKey o.1 ≤ abrKey h.1)
    ∧ defaultQuality (fetchVideoOptions streams) = ((fetchVideoOptions streams).map Prod.snd)[0]?
    ∧ defaultQuality (fetchAudioOptions streams) =
        ((fetchAudioOptions streams).map Prod.snd)[0]? := by
  refine ⟨fetchVideoOptions_pairwise streams, ?_, fetchAudioOptions_pairwise streams, ?_, ?_, ?_⟩
  · intro h hh
    exact pairwise_head?_max (fetchVideoOptions_pairwise streams) hh
  · intro h hh
    exact pairwise_head?_max (fetchAudioOptions_pairwise streams) hh
  · cases fetchVideoOptions streams with
    | nil => rfl
    | cons a tl => simp [defaultQuality]
  · cases fetchAudioOptions streams with
    | nil => rfl
    | cons a tl => simp [defaultQuality]

def demoStream360 : MediaStream := ⟨18, true, true, false, some 360, none, 500, true⟩

def demoStream720 : MediaStream := ⟨22, true, true, false, some 720, none, 900, true⟩

theorem C8_catalog_sorted_desc_witness :
    resKey demoStream360 ≤ resKey demoStream720 :=
  (C8_catalog_sorted_desc [demoStream360, demoStream720]).2.1
    (demoStream720, videoLabel demoStream720) (by decide)
    (demoStream360, videoLabel demoStream360) (by decide)

/-! ## Claim C10 — failed playlist members shift displayed vs internal indices -/

lemma filterMap_id_length_lt {l : List (Option String)} (h : none ∈ l) :
    (l.filterMap id).length < l.length := by
  induction l with
  | nil => simp at h
  | cons o l ih =>
    cases o with
    | none =>
      have he : List.filterMap id (none :: l) = List.filterMap id l := rfl
      rw [he, List.length_cons]
      exact Nat.lt_succ_of_le (List.length_filterMap_le id l)
    | some a =>
      have h' : none ∈ l := by
        rcases List.mem_cons.mp h with hc | hc
        · exact absurd hc.symm (by simp)
        · exact hc
      have he : List.filterMap id (some a :: l) = a :: List.filterMap id l := rfl
      rw [he, List.length_cons, List.length_cons]
      exact Nat.succ_lt_succ (ih h')

lemma filterMap_id_getElem?_origin :
    ∀ (l : List (Option String)) (n : Nat) (t : String),
      (l.filterMap id)[n]? = some t →
      ∃ p : Nat, l[p]? = some (some t) ∧ ((l.take p).filterMap id).length = n := by
  intro l
  induction l with
  | nil => intro n t h; simp at h
  | cons o l ih =>
    intro n t h
    cases o with
    | none =>
      have he : List.filterMap id (none :: l) = List.filterMap id l := rfl
      rw [he] at h
      obtain ⟨p, hp1, hp2⟩ := ih n t h
      refine ⟨p + 1, by simpa using hp1, ?_⟩
      rw [List.take_succ_cons]
      have he2 : List.filterMap id (none :: List.take p l) = List.filterMap id (List.take p l) := rfl
      rw [he2]
      exact hp2
    | some a =>
      have he : List.filterMap id (some a :: l) = a :: List.filterMap id l := rfl
      rw [he] at h
      cases n with
      | zero =>
        simp only [List.getElem?_cons_zero, Option.some_inj] at h
        exact ⟨0, by simp [h], by simp⟩
      | succ n =>
        rw [List.getElem?_cons_succ] at h
        obtain ⟨p, hp1, hp2⟩ := ih n t h
        refine ⟨p + 1, by simpa using hp1, ?_⟩
        rw [List.take_succ_cons]
        have he2 : List.filterMap id (some a :: List.take p l) =
            a :: List.filterMap id (List.take p l) := rfl
        rw [he2, List.length_cons, hp2]

lemma take_filterMap_id_length_mono (l : List (Option String)) {p i : Nat} (h : p ≤ i) :
    ((l.take p).filterMap id).length ≤ ((l.take i).filterMap id).length := by
  have hsub : List.Sublist (l.take p) (l.take i) := by
    rw [show l.take p = (l.take i).take p from by rw [List.take_take, Nat.min_eq_left h]]
    exact List.take_sublist p (l.take i)
  exact (hsub.filterMap id).length_le

/-- C10 (implicit behavior): a playlist member whose title resolution fails is
shown as a placeholder row but omitted from `playlist_videos_info`, while a
download selection indexes `playlist_videos_info` directly; so when a failed
member precedes a resolved member at displayed position `i`, that member's
internal index is strictly smaller than `i`, and selecting displayed row `i`
resolves to an item originating strictly after position `i` — or to no item
at all. -/
theorem C10_playlist_index_mismatch (members : List (Option String)) (j i : Nat) (ti : String)
    (hj : members[j]? = some none) (hji : j < i) (hi : members[i]? = some (some ti)) :
    (playlistDisplayEntries members)[i]? = some (toString (i + 1) ++ ". " ++ ti)
    ∧ ((members.take i).filterMap id).length < i
    ∧ (∀ t : String, resolveSelectionIndex members i = some t →
        ∃ p : Nat, i < p ∧ members[p]? = some (some t)) := by
  have hilen : i < members.length := (List.getElem?_eq_some_iff.mp hi).1
  have hnone_in : none ∈ members.take i := by
    have htk : (members.take i)[j]? = some none := by
      rw [List.getElem?_take_of_lt hji]
      exact hj
    exact List.getElem?_mem htk
  have hcount : ((members.take i).filterMap id).length < i := by
    have h1 := filterMap_id_length_lt hnone_in
    have h2 : (members.take i).length = i := by
      rw [List.length_take]
      omega
    omega
  refine ⟨?_, hcount, ?_⟩
  · unfold playlistDisplayEntries
    rw [List.getElem?_map, List.getElem?_enum, hi]
    rfl
  · intro t ht
    have ht' : (members.filterMap id)[i]? = some t := ht
    obtain ⟨p, hp1, hp2⟩ := filterMap_id_getElem?_origin members i t ht'
    refine ⟨p, ?_, hp1⟩
    by_contra hpi
    push_neg at hpi
    have hmono := take_filterMap_id_length_mono members hpi
    omega

theorem C10_playlist_index_mismatch_witness :
    (playlistDisplayEntries [none, some "B", some "C"])[1]? =
        some (toString (1 + 1) ++ ". " ++ "B")
    ∧ ((([none, some "B", some "C"] : List (Option String)).take 1).filterMap id).length < 1
    ∧ (∀ t : String, resolveSelectionIndex [none, some "B", some "C"] 1 = some t →
        ∃ p : Nat, 1 < p ∧ ([none, some "B", some "C"] : List (Option String))[p]? =
          some (some t)) :=
  C10_playlist_index_mismatch [none, some "B", some "C"] 0 1 "B" rfl (by decide) rfl

/-! ## Claim C5 — sanitization idempotence

The pipeline truncates AFTER stripping underscores, so the truncation can
re-introduce a trailing underscore that a second pass would strip; away from
that single situation the pipeline is a no-op on its own output. -/

def noUU (a b : Char) : Prop := ¬(a = '_' ∧ b = '_')

lemma noUU_comm {a b : Char} (h : noUU a b) : noUU b a := fun hc => h ⟨hc.2, hc.1⟩

lemma noUU_of_left {a b : Char} (h : ¬a = '_') : noUU a b := fun hc => h hc.1

lemma noUU_of_right {a b : Char} (h : ¬b = '_') : noUU a b := fun hc => h hc.2

lemma mem_collapseAux {p : Char → Bool} {rep : Char} :
    ∀ (b : Bool) (l : List Char) (c : Char),
      c ∈ collapseAux p rep b l → c = rep ∨ (c ∈ l ∧ p c = false) := by
  intro b l
  induction l generalizing b with
  | nil => intro c h; simp [collapseAux] at h
  | cons a l ih =>
    intro c h
    cases hpa : p a with
    | true =>
      cases b with
      | true =>
        have he : collapseAux p rep true (a :: l) = collapseAux p rep true l := by
          simp [collapseAux, hpa]
        rw [he] at h
        rcases ih true c h with h1 | ⟨h2, h3⟩
        · exact Or.inl h1
        · exact Or.inr ⟨List.mem_cons_of_mem a h2, h3⟩
      | false =>
        have he : collapseAux p rep false (a :: l) = rep :: collapseAux p rep true l := by
          simp [collapseAux, hpa]
        rw [he] at h
        rcases List.mem_cons.mp h with rfl | h'
        · exact Or.inl rfl
        · rcases ih true c h' with h1 | ⟨h2, h3⟩
          · exact Or.inl h1
          · exact Or.inr ⟨List.mem_cons_of_mem a h2, h3⟩
    | false =>
      have he : collapseAux p rep b (a :: l) = a :: collapseAux p rep false l := by
        simp [collapseAux, hpa]
      rw [he] at h
      rcases List.mem_cons.mp h with rfl | h'
      · exact Or.inr ⟨List.mem_cons_self c l, hpa⟩
      · rcases ih false c h' with h1 | ⟨h2, h3⟩
        · exact Or.inl h1
        · exact Or.inr ⟨List.mem_cons_of_mem a h2, h3⟩

lemma mem_collapseRuns {p : Char → Bool} {rep : Char} {l : List Char} {c : Char}
    (h : c ∈ collapseRuns p rep l) : c = rep ∨ (c ∈ l ∧ p c = false) :=
  mem_collapseAux false l c h

lemma collapseAux_eq_self {p : Char → Bool} {rep : Char} :
    ∀ (b : Bool) (l : List Char), (∀ c ∈ l, p c = false) → collapseAux p rep b l = l := by
  intro b l
  induction l generalizing b with
  | nil => intro _; rfl
  | cons a l ih =>
    intro h
    have ha : p a = false := h a (List.mem_cons_self a l)
    have hl : ∀ c ∈ l, p c = false := fun c hc => h c (List.mem_cons_of_mem a hc)
    simp [collapseAux, ha, ih false hl]

lemma head?_collapseAux_true {p : Char → Bool} {rep : Char} :
    ∀ (l : List Char) (c : Char), (collapseAux p rep true l).head? = some c → p c = false := by
  intro l
  induction l with
  | nil => intro c h; simp [collapseAux] at h
  | cons a l ih =>
    intro c h
    cases hpa : p a with
    | true =>
      rw [show collapseAux p rep true (a :: l) = collapseAux p rep true l from by
        simp [collapseAux, hpa]] at h
      exact ih c h
    | false =>
      rw [show collapseAux p rep true (a :: l) = a :: collapseAux p rep false l from by
        simp [collapseAux, hpa]] at h
      simp only [List.head?_cons, Option.some_inj] at h
      rw [← h]
      exact hpa

lemma chain'_collapseAux_und :
    ∀ (b : Bool) (l : List Char), List.Chain' noUU (collapseAux isUnd '_' b l) := by
  intro b l
  induction l generalizing b with
  | nil => simp [collapseAux]
  | cons a l ih =>
    cases hpa : isUnd a with
    | false =>
      have he : collapseAux isUnd '_' b (a :: l) = a :: collapseAux isUnd '_' false l := by
        simp [collapseAux, hpa]
      rw [he, List.chain'_cons']
      refine ⟨?_, ih false⟩
      intro y hy
      apply noUU_of_left
      intro hae
      rw [hae] at hpa
      simp [isUnd] at hpa
    | true =>
      cases b with
      | true =>
        have he : collapseAux isUnd '_' true (a :: l) = collapseAux isUnd '_' true l := by
          simp [collapseAux, hpa]
        rw [he]
        exact ih true
      | false =>
        have he : collapseAux isUnd '_' false (a :: l) = '_' :: collapseAux isUnd '_' true l := by
          simp [collapseAux, hpa]
        rw [he, List.chain'_cons']
        refine ⟨?_, ih true⟩
        intro y hy
        apply noUU_of_right
        intro hye
        have hf := head?_collapseAux_true l y hy
        rw [hye] at hf
        simp [isUnd] at hf

lemma collapseAux_true_eq_false {p : Char → Bool} {rep : Char} {l : List Char}
    (h : ∀ c, l.head? = some c → p c = false) :
    collapseAux p rep true l = collapseAux p rep false l := by
  cases l with
  | nil => rfl
  | cons a l =>
    have ha := h a rfl
    simp [collapseAux, ha]

lemma collapseAux_und_eq_self :
    ∀ (l : List Char), List.Chain' noUU l → collapseAux isUnd '_' false l = l := by
  intro l
  induction l with
  | nil => intro _; rfl
  | cons a l ih =>
    intro h
    rw [List.chain'_cons'] at h
    obtain ⟨h1, h2⟩ := h
    cases hpa : isUnd a with
    | false => simp [collapseAux, hpa, ih h2]
    | true =>
      have ha : a = '_' := eq_of_beq hpa
      have he : collapseAux isUnd '_' false (a :: l) = '_' :: collapseAux isUnd '_' true l := by
        simp [collapseAux, hpa]
      rw [he, collapseAux_true_eq_false ?hh, ih h2, ha]
      case hh =>
        intro c hc
        have hnc : ¬c = '_' := fun hce => h1 c hc ⟨ha, hce⟩
        exact beq_eq_false_iff_ne.mpr hnc
lemma mem_of_mem_dropWhile {p : Char → Bool} {l : List Char} {c : Char}
    (h : c ∈ l.dropWhile p) : c ∈ l :=
  (List.dropWhile_sublist p).subset h

lemma head?_dropWhile {p : Char → Bool} {l : List Char} {c : Char}
    (h : (l.dropWhile p).head? = some c) : p c = false := by
  have hm := List.head?_dropWhile_not p l
  rw [h] at hm
  exact hm

lemma dropWhile_eq_self {p : Char → Bool} {l : List Char}
    (h : ∀ c, l.head? = some c → p c = false) : l.dropWhile p = l := by
  cases l with
  | nil => rfl
  | cons a l =>
    have ha := h a rfl
    simp [List.dropWhile_cons, ha]

lemma chain'_dropWhile {R : Char → Char → Prop} {p : Char → Bool} :
    ∀ {l : List Char}, List.Chain' R l → List.Chain' R (l.dropWhile p) := by
  intro l
  induction l with
  | nil => intro h; exact h
  | cons a l ih =>
    intro h
    rw [List.dropWhile_cons]
    by_cases hpa : p a = true
    · rw [if_pos hpa]
      exact ih (List.chain'_cons'.mp h).2
    · rw [if_neg hpa]
      exact h

lemma mem_of_mem_pyStrip {p : Char → Bool} {l : List Char} {c : Char}
    (h : c ∈ pyStrip p l) : c ∈ l := by
  unfold pyStrip at h
  rw [List.mem_reverse] at h
  have h2 := mem_of_mem_dropWhile h
  rw [List.mem_reverse] at h2
  exact mem_of_mem_dropWhile h2

lemma chain'_pyStrip {p : Char → Bool} {l : List Char} (h : List.Chain' noUU l) :
    List.Chain' noUU (pyStrip p l) := by
  unfold pyStrip
  rw [List.chain'_reverse]
  apply List.Chain'.imp (fun a b hab => noUU_comm hab)
  apply chain'_dropWhile
  rw [List.chain'_reverse]
  apply List.Chain'.imp (fun a b hab => noUU_comm hab)
  exact chain'_dropWhile h

lemma head?_rstrip {p : Char → Bool} :
    ∀ (m : List Char) (c : Char),
      ((m.reverse.dropWhile p).reverse).head? = some c → m.head? = some c := by
  intro m c h
  cases m with
  | nil => simp at h
  | cons a t =>
    rw [List.reverse_cons, List.dropWhile_append] at h
    by_cases he : (t.reverse.dropWhile p).isEmpty = true
    · rw [if_pos he] at h
      by_cases hpa : p a = true
      · rw [List.dropWhile_cons, if_pos hpa, List.dropWhile_nil, List.reverse_nil] at h
        simp at h
      · rw [List.dropWhile_cons, if_neg hpa] at h
        simp only [List.reverse_cons, List.reverse_nil, List.nil_append, List.head?_cons,
          Option.some_inj] at h
        rw [List.head?_cons, h]
    · rw [if_neg he] at h
      rw [List.reverse_append] at h
      simp only [List.reverse_cons, List.reverse_nil, List.nil_append, List.singleton_append,
        List.head?_cons, Option.some_inj] at h
      rw [List.head?_cons, h]

lemma head?_pyStrip {p : Char → Bool} {l : List Char} {c : Char}
    (h : (pyStrip p l).head? = some c) : p c = false := by
  unfold pyStrip at h
  have h2 := head?_rstrip (l.dropWhile p) c h
  exact head?_dropWhile h2

lemma pyStrip_eq_self {p : Char → Bool} {l : List Char}
    (h1 : ∀ c, l.head? = some c → p c = false)
    (h2 : ∀ c, l.getLast? = some c → p c = false) : pyStrip p l = l := by
  unfold pyStrip
  rw [dropWhile_eq_self h1]
  rw [dropWhile_eq_self ?hrev]
  · exact List.reverse_reverse l
  case hrev =>
    intro c hc
    rw [List.head?_reverse] at hc
    exact h2 c hc

lemma mem_of_mem_take {l : List Char} {n : Nat} {c : Char} (h : c ∈ l.take n) : c ∈ l :=
  (List.take_sublist n l).subset h

lemma head?_mem_of_take {l : List Char} {n : Nat} {c : Char}
    (h : c ∈ (l.take n).head?) : c ∈ l.head? := by
  cases l with
  | nil => rw [List.take_nil] at h; exact h
  | cons a t =>
    cases n with
    | zero => simp at h
    | succ n => simpa using h

lemma chain'_take {R : Char → Char → Prop} :
    ∀ (n : Nat) {l : List Char}, List.Chain' R l → List.Chain' R (l.take n) := by
  intro n l
  induction l generalizing n with
  | nil => intro _; simp
  | cons a t ih =>
    intro h
    cases n with
    | zero => simp
    | succ n =>
      rw [List.take_succ_cons, List.chain'_cons']
      rw [List.chain'_cons'] at h
      exact ⟨fun y hy => h.1 y (head?_mem_of_take hy), ih n h.2⟩
lemma sanitizeChars_noIllegal {l : List Char} {c : Char} (h : c ∈ sanitizeChars l) :
    isIllegal c = false := by
  unfold sanitizeChars at h
  have h1 := mem_of_mem_pyStrip (mem_of_mem_take h)
  rcases mem_collapseRuns h1 with rfl | ⟨h2, _⟩
  · decide
  · rcases mem_collapseRuns h2 with rfl | ⟨h3, _⟩
    · decide
    · have h4 := List.of_mem_filter h3
      simpa using h4

lemma sanitizeChars_noWs {l : List Char} {c : Char} (h : c ∈ sanitizeChars l) :
    isPySpace c = false := by
  unfold sanitizeChars at h
  have h1 := mem_of_mem_pyStrip (mem_of_mem_take h)
  rcases mem_collapseRuns h1 with rfl | ⟨h2, _⟩
  · decide
  · rcases mem_collapseRuns h2 with rfl | ⟨_, h3⟩
    · decide
    · exact h3

lemma sanitizeChars_chain' (l : List Char) : List.Chain' noUU (sanitizeChars l) := by
  unfold sanitizeChars
  exact chain'_take 100 (chain'_pyStrip (chain'_collapseAux_und false _))

lemma sanitizeChars_head_ne_und {l : List Char} {c : Char}
    (h : (sanitizeChars l).head? = some c) : isUnd c = false := by
  unfold sanitizeChars at h
  have h1 : c ∈ (List.take 100 (pyStrip isUnd (collapseRuns isUnd '_'
      (collapseRuns isPySpace '_' (List.filter (fun x => !(isIllegal x)) l))))).head? := h
  have h2 := head?_mem_of_take h1
  exact head?_pyStrip h2

lemma sanitizeChars_length_le (l : List Char) : (sanitizeChars l).length ≤ 100 := by
  unfold sanitizeChars
  exact List.length_take_le 100 _

lemma sanitizeChars_idem {l : List Char} (h : (sanitizeChars l).getLast? ≠ some '_') :
    sanitizeChars (sanitizeChars l) = sanitizeChars l := by
  have e1 : List.filter (fun c => !(isIllegal c)) (sanitizeChars l) = sanitizeChars l := by
    rw [List.filter_eq_self]
    intro c hc
    simp [sanitizeChars_noIllegal hc]
  have e2 : collapseRuns isPySpace '_' (sanitizeChars l) = sanitizeChars l :=
    collapseAux_eq_self false _ (fun c hc => sanitizeChars_noWs hc)
  have e3 : collapseRuns isUnd '_' (sanitizeChars l) = sanitizeChars l :=
    collapseAux_und_eq_self _ (sanitizeChars_chain' l)
  have e4 : pyStrip isUnd (sanitizeChars l) = sanitizeChars l := by
    apply pyStrip_eq_self
    · intro c hc
      exact sanitizeChars_head_ne_und hc
    · intro c hc
      have hnc : ¬c = '_' := by
        intro he
        rw [he] at hc
        exact h hc
      exact beq_eq_false_iff_ne.mpr hnc
  have e5 : List.take 100 (sanitizeChars l) = sanitizeChars l :=
    List.take_of_length_le (sanitizeChars_length_le l)
  calc sanitizeChars (sanitizeChars l)
      = List.take 100 (pyStrip isUnd (collapseRuns isUnd '_'
          (collapseRuns isPySpace '_'
            (List.filter (fun c => !(isIllegal c)) (sanitizeChars l))))) := rfl
    _ = sanitizeChars l := by rw [e1, e2, e3, e4, e5]

/-- C5 (amended): sanitization is idempotent for every title whose sanitized
form does not end in an underscore.  The sole exception — acknowledged by the
counterexample below — arises when the final 100-character truncation cuts
right after an underscore, because the underscore-stripping step runs BEFORE
the truncation in the source. -/
theorem C5_sanitize_idempotent_unless_trailing_underscore (s : String)
    (h : (sanitize_filename s).data.getLast? ≠ some '_') :
    sanitize_filename (sanitize_filename s) = sanitize_filename s := by
  show String.mk (sanitizeChars (sanitizeChars s.data)) = String.mk (sanitizeChars s.data)
  congr 1
  exact sanitizeChars_idem h

theorem C5_sanitize_idempotent_witness :
    (sanitize_filename "My Video").data.getLast? ≠ some '_'
    ∧ sanitize_filename (sanitize_filename "My Video") = sanitize_filename "My Video" :=
  ⟨by decide, C5_sanitize_idempotent_unless_trailing_underscore "My Video" (by decide)⟩

/-- A title of 99 `a`s, a space and a `b`: sanitization turns the space into
an underscore at position 99 and the truncation keeps exactly 100 characters,
so the result ends in `_`; a second pass strips that underscore. -/
def truncTitle : String := String.mk (List.replicate 99 'a' ++ [' ', 'b'])

/-- C5 fails as stated: `sanitize` is not idempotent on `truncTitle`. -/
theorem C5_sanitize_not_idempotent_counterexample :
    sanitize_filename (sanitize_filename truncTitle) ≠ sanitize_filename truncTitle := by
  decide

end YTDL
